import Mathlib

/-!
# Go-MCC level storage (`storage/lvlstorage.go`)

A shallow embedding of `LvlStorage.getPath`, `LvlStorage.Load` and
`LvlStorage.Save`, and the properties of the on-disk `.lvl` format they
implement.

Modelling conventions.

* A byte is a `Fin 256`; `uint16`, `uint` and `byte` header fields are natural
  numbers, narrowed with an explicit `%` where Go narrows.
* `float64` values are exact rationals (not-a-number and the infinities are
  left out).  The arithmetic of `Load` is exact in `float64` as well: it adds
  0.5 to a 16-bit integer and takes a byte times 360 / 256.  The conversion of
  a `float64` to an unsigned integer truncates toward zero; when the truncated
  value does not fit the target type Go leaves the result to the
  implementation, so that result is a parameter of the model
  (`WriteEnv.conv16`, `WriteEnv.conv8`).
* The operating system, the gzip filter and `gomcc.NewLevel` are parameters
  (`ReadEnv`, `WriteEnv`).  A gzip reader is the list of decompressed bytes it
  delivers together with the error it reports once they are used up.
* Go functions with several results return a record with one field per
  result, so that "error is nil" and "level is nil" are independent facts.
* Every run also yields the trace of acquire and release events, deferred
  calls being run last-registered-first on each return.
-/

namespace storage

/-- One octet of a file or of a stream. -/
abbrev Byte := Fin 256

/-- Modelled from the spec: the type `gomcc.Location` is declared outside the
sources; these are the fields `Load` and `Save` use (position and orientation
in degrees), with `float64` taken as an exact rational. -/
structure Location where
  X : ℚ
  Y : ℚ
  Z : ℚ
  Yaw : ℚ
  Pitch : ℚ
deriving DecidableEq

/-- Modelled from the spec: the type `gomcc.Level` is declared outside the
sources; these are the fields `Load` and `Save` use.  `Width`, `Height` and
`Length` are Go `uint`s, `Blocks` is the `[]byte` block buffer. -/
structure Level where
  Name : String
  Width : Nat
  Height : Nat
  Length : Nat
  Blocks : List Byte
  Spawn : Location
deriving DecidableEq

/-- The Go `error` values that `Load` and `Save` can return. -/
inductive Error where
  /-- The value `io.EOF`. -/
  | EOF
  /-- The value `io.ErrUnexpectedEOF`. -/
  | ErrUnexpectedEOF
  /-- The value `errors.New("lvlstorage: invalid format")`. -/
  | invalidFormat
  /-- The value `errors.New("lvlstorage: level creation failed")`. -/
  | creationFailed
  /-- Any error of `os`, of `gzip` or of the underlying file. -/
  | external (msg : String)
deriving DecidableEq

/-- The text of an error (Go's `err.Error()`). -/
def Error.message : Error → String
  | .EOF => "EOF"
  | .ErrUnexpectedEOF => "unexpected EOF"
  | .invalidFormat => "lvlstorage: invalid format"
  | .creationFailed => "lvlstorage: level creation failed"
  | .external msg => msg

/-- The header of a `.lvl` file (`type lvlHeader struct`). -/
structure lvlHeader where
  Version : Nat
  Width : Nat
  Height : Nat
  Length : Nat
  SpawnX : Nat
  SpawnY : Nat
  SpawnZ : Nat
  SpawnYaw : Nat
  SpawnPitch : Nat
  PermissionVisit : Nat
  PermissionBuild : Nat
deriving DecidableEq

/-- The storage backend (`type LvlStorage struct`). -/
structure LvlStorage where
  dirPath : String
deriving DecidableEq

/-- `NewLvlStorage`: the value it returns (the `os.Mkdir` call, whose result
is dropped, has no part in it). -/
def NewLvlStorage (dirPath : String) : LvlStorage := ⟨dirPath⟩

/-- `getPath`: `storage.dirPath + name + ".lvl"`. -/
def LvlStorage.getPath (storage : LvlStorage) (name : String) : String :=
  storage.dirPath ++ name ++ ".lvl"

/-! ## Byte order (`encoding/binary`, `binary.BigEndian`) -/

/-- A 16-bit value from its two bytes, most significant first. -/
def u16 (hi lo : Byte) : Nat := hi.val * 256 + lo.val

/-- The two bytes of a 16-bit value, most significant first. -/
def putU16 (v : Nat) : List Byte := [Fin.ofNat (v / 256), Fin.ofNat v]

/-- The 18 bytes `binary.Write` emits for a header. -/
def encodeHeader (h : lvlHeader) : List Byte :=
  putU16 h.Version ++ putU16 h.Width ++ putU16 h.Height ++ putU16 h.Length ++
  putU16 h.SpawnX ++ putU16 h.SpawnY ++ putU16 h.SpawnZ ++
  [Fin.ofNat h.SpawnYaw, Fin.ofNat h.SpawnPitch,
   Fin.ofNat h.PermissionVisit, Fin.ofNat h.PermissionBuild]

/-- The header `binary.Read` fills from 18 bytes. -/
def decodeHeader (bs : List Byte) : lvlHeader where
  Version := u16 (bs.getD 0 0) (bs.getD 1 0)
  Width := u16 (bs.getD 2 0) (bs.getD 3 0)
  Height := u16 (bs.getD 4 0) (bs.getD 5 0)
  Length := u16 (bs.getD 6 0) (bs.getD 7 0)
  SpawnX := u16 (bs.getD 8 0) (bs.getD 9 0)
  SpawnY := u16 (bs.getD 10 0) (bs.getD 11 0)
  SpawnZ := u16 (bs.getD 12 0) (bs.getD 13 0)
  SpawnYaw := (bs.getD 14 0).val
  SpawnPitch := (bs.getD 15 0).val
  PermissionVisit := (bs.getD 16 0).val
  PermissionBuild := (bs.getD 17 0).val

/-! ## Readers and writers -/

/-- A gzip reader: the decompressed bytes it still delivers, and the error it
reports once they are used up (`io.EOF` at a clean end of stream). -/
structure Reader where
  data : List Byte
  tail : Error

/-- `io.ReadFull(r, buf)` with `len(buf) = n`: the bytes read, or the error,
and the reader afterwards.  Fewer than `n` bytes give the reader's error,
`io.EOF` becoming `io.ErrUnexpectedEOF` when some bytes were read. -/
def ReadFull (r : Reader) (n : Nat) : Except Error (List Byte) × Reader :=
  if n ≤ r.data.length then
    (.ok (r.data.take n), { r with data := r.data.drop n })
  else
    (.error (if 0 < r.data.length ∧ r.tail = .EOF then .ErrUnexpectedEOF else r.tail),
     { r with data := [] })

/-- `binary.Read(r, binary.BigEndian, &header)`: 18 bytes read in full, then
decoded. -/
def binaryRead (r : Reader) : Except Error lvlHeader × Reader :=
  match ReadFull r 18 with
  | (.ok bs, r') => (.ok (decodeHeader bs), r')
  | (.error err, r') => (.error err, r')

/-- A gzip writer: the uncompressed bytes it has accepted, how many more it
accepts before the underlying file fails (`none`: it never fails), and the
error it then reports. -/
structure Writer where
  out : List Byte
  room : Option Nat
  fault : Error

/-- `w.Write(p)`: the error result and the writer afterwards. -/
def Writer.Write (w : Writer) (p : List Byte) : Option Error × Writer :=
  match w.room with
  | none => (none, { w with out := w.out ++ p })
  | some k =>
    if p.length ≤ k then
      (none, { w with out := w.out ++ p, room := some (k - p.length) })
    else
      (some w.fault, { w with out := w.out ++ p.take k, room := some 0 })

/-! ## Numeric conversions -/

/-- Truncation toward zero, the rounding of Go's float-to-integer
conversions. -/
def truncQ (x : ℚ) : Int := if 0 ≤ x then Int.floor x else Int.ceil x

/-- `uint16(x)` for a `float64` `x`; `conv` is the implementation's result
when the truncated value does not fit. -/
def toUint16 (conv : ℚ → Nat) (x : ℚ) : Nat :=
  if 0 ≤ truncQ x ∧ truncQ x < 65536 then (truncQ x).toNat else conv x % 65536

/-- `byte(x)` for a `float64` `x`; `conv` is the implementation's result when
the truncated value does not fit. -/
def toByte (conv : ℚ → Nat) (x : ℚ) : Nat :=
  if 0 ≤ truncQ x ∧ truncQ x < 256 then (truncQ x).toNat else conv x % 256

/-! ## Environments, events and results -/

/-- What `Load` gets from outside the package. -/
structure ReadEnv where
  /-- `os.Open`: the stored (compressed) content of the file, or an error. -/
  Open : String → Except Error (List Byte)
  /-- `gzip.NewReader` over a file with that content. -/
  NewReader : List Byte → Except Error Reader
  /-- `gomcc.NewLevel`; `none` is the nil pointer. -/
  NewLevel : String → Nat → Nat → Nat → Option Level

/-- What `Save` gets from outside the package. -/
structure WriteEnv where
  /-- `os.Create`: `none` when the file was created. -/
  Create : String → Option Error
  /-- How many bytes the gzip writer accepts before failing (`none`: all). -/
  room : Option Nat
  /-- The error of a failed write. -/
  fault : Error
  /-- The implementation's `uint16(x)` for an `x` out of range. -/
  conv16 : ℚ → Nat
  /-- The implementation's `byte(x)` for an `x` out of range. -/
  conv8 : ℚ → Nat

/-- Acquire and release events of one call. -/
inductive Event where
  | fileOpened
  | filterOpened
  | headerMoved
  | blocksMoved
  | filterClosed
  | fileClosed
deriving DecidableEq

/-- The trace of a call that returns: the events of its body, then its
deferred calls.  `defers` is the stack of deferred calls, the last registered
at its head. -/
def returning (body defers : List Event) : List Event := body ++ defers

/-- The results of `Load` (`level`, `err`) and its trace. -/
structure LoadResult where
  level : Option Level
  err : Option Error
  trace : List Event

/-- The result of `Save` (`err`), the uncompressed bytes the gzip writer
accepted, and the trace. -/
structure SaveResult where
  err : Option Error
  written : List Byte
  trace : List Event

/-! ## `Load` and `Save` -/

/-- `func (storage *LvlStorage) Load(name string) (level *gomcc.Level, err error)`. -/
def LvlStorage.Load (env : ReadEnv) (storage : LvlStorage) (name : String) : LoadResult :=
  match env.Open (storage.getPath name) with
  | .error err => ⟨none, some err, returning [] []⟩
  | .ok file =>
    -- defer file.Close()
    let defers := [Event.fileClosed]
    match env.NewReader file with
    | .error err => ⟨none, some err, returning [.fileOpened] defers⟩
    | .ok reader =>
      -- defer reader.Close()
      let defers := Event.filterClosed :: defers
      match binaryRead reader with
      | (.error err, _) =>
        ⟨none, some err, returning [.fileOpened, .filterOpened, .headerMoved] defers⟩
      | (.ok header, reader) =>
        if header.Version ≠ 1874 then
          ⟨none, some .invalidFormat,
            returning [.fileOpened, .filterOpened, .headerMoved] defers⟩
        else
          match env.NewLevel name header.Width header.Height header.Length with
          | none =>
            ⟨none, some .creationFailed,
              returning [.fileOpened, .filterOpened, .headerMoved] defers⟩
          | some level =>
            let level := { level with
              Spawn := {
                X := (header.SpawnX : ℚ) + 1 / 2
                Y := (header.SpawnY : ℚ)
                Z := (header.SpawnZ : ℚ) + 1 / 2
                Yaw := (header.SpawnYaw : ℚ) * 360 / 256
                Pitch := (header.SpawnPitch : ℚ) * 360 / 256 } }
            match ReadFull reader level.Blocks.length with
            | (.error err, _) =>
              ⟨none, some err,
                returning [.fileOpened, .filterOpened, .headerMoved, .blocksMoved] defers⟩
            | (.ok blocks, _) =>
              ⟨some { level with Blocks := blocks }, none,
                returning [.fileOpened, .filterOpened, .headerMoved, .blocksMoved] defers⟩

/-- The header `Save` builds from a level. -/
def headerOf (env : WriteEnv) (level : Level) : lvlHeader where
  Version := 1874
  Width := level.Width % 65536
  Height := level.Height % 65536
  Length := level.Length % 65536
  SpawnX := toUint16 env.conv16 level.Spawn.X
  SpawnY := toUint16 env.conv16 level.Spawn.Y
  SpawnZ := toUint16 env.conv16 level.Spawn.Z
  SpawnYaw := toByte env.conv8 (level.Spawn.Yaw * 256 / 360)
  SpawnPitch := toByte env.conv8 (level.Spawn.Pitch * 256 / 360)
  PermissionVisit := 0
  PermissionBuild := 0

/-- `func (storage *LvlStorage) Save(level *gomcc.Level) (err error)`. -/
def LvlStorage.Save (env : WriteEnv) (storage : LvlStorage) (level : Level) : SaveResult :=
  match env.Create (storage.getPath level.Name) with
  | some err => ⟨some err, [], returning [] []⟩
  | none =>
    let writer : Writer := ⟨[], env.room, env.fault⟩
    -- defer file.Close()
    let defers := [Event.fileClosed]
    -- defer writer.Close()
    let defers := Event.filterClosed :: defers
    match writer.Write (encodeHeader (headerOf env level)) with
    | (some err, writer) =>
      ⟨some err, writer.out, returning [.fileOpened, .filterOpened, .headerMoved] defers⟩
    | (none, writer) =>
      match writer.Write level.Blocks with
      | (err, writer) =>
        ⟨err, writer.out,
          returning [.fileOpened, .filterOpened, .headerMoved, .blocksMoved] defers⟩

/-! ## Notions used in the statements -/

/-- The events of a call that got as far as moving the header. -/
def headerTrace : List Event :=
  [.fileOpened, .filterOpened, .headerMoved, .filterClosed, .fileClosed]

/-- The events of a call that got as far as moving the blocks. -/
def fullTrace : List Event :=
  [.fileOpened, .filterOpened, .headerMoved, .blocksMoved, .filterClosed, .fileClosed]

/-- The spawn state `Load` derives from a header. -/
def spawnOf (h : lvlHeader) : Location where
  X := (h.SpawnX : ℚ) + 1 / 2
  Y := (h.SpawnY : ℚ)
  Z := (h.SpawnZ : ℚ) + 1 / 2
  Yaw := (h.SpawnYaw : ℚ) * 360 / 256
  Pitch := (h.SpawnPitch : ℚ) * 360 / 256

/-- The decompressed stream behind a path: the file opens, and the gzip reader
over it delivers the bytes `s` and then reports `tail`. -/
def Delivers (env : ReadEnv) (path : String) (s : List Byte) (tail : Error) : Prop :=
  ∃ file, env.Open path = .ok file ∧ env.NewReader file = .ok ⟨s, tail⟩

/-- What the specification assumes of `gomcc.NewLevel` at one call: it returns a level
with the dimensions asked for and a block buffer of `w * h * l` bytes. -/
def Allocates (mk : String → Nat → Nat → Nat → Option Level) (name : String)
    (w h l : Nat) : Prop :=
  ∃ lv, mk name w h l = some lv ∧ lv.Width = w ∧ lv.Height = h ∧ lv.Length = l ∧
    lv.Blocks.length = w * h * l

/-- Every level `gomcc.NewLevel` returns has a block buffer of `w * h * l`
bytes (it may still return nil). -/
def SizedBuffers (mk : String → Nat → Nat → Nat → Option Level) : Prop :=
  ∀ name w h l lv, mk name w h l = some lv → lv.Blocks.length = w * h * l

/-- The tolerance of an angle `b` read back for a stored angle `a`: it
lies in [0, 360), is not greater than `a`, and is less than 360/256 below
it. -/
def AngleWithin (a b : ℚ) : Prop :=
  0 ≤ b ∧ b < 360 ∧ b ≤ a ∧ a - b < 360 / 256

/-- The filter and the file are each closed exactly once in a trace, the
filter strictly before the file. -/
def ClosedInOrder (t : List Event) : Prop :=
  t.count .filterClosed = 1 ∧ t.count .fileClosed = 1 ∧
    t.indexOf .filterClosed < t.indexOf .fileClosed

/-- The events of a trace from the first close of the file on. -/
def fromFileClose (t : List Event) : List Event :=
  t.dropWhile (fun e => decide (e ≠ .fileClosed))

/-! ## Sample inputs -/

/-- Modelled from the spec: `gomcc.NewLevel` is outside the sources; this
instance does what the spec says of it ("Allocate a snapshot sized by
Width×Height×Length from the header"): the dimensions asked for and a zeroed
buffer of `width * height * length` bytes.  It only instantiates theorems
that hold for every `NewLevel`. -/
def sampleNewLevel (name : String) (width height length : Nat) : Option Level :=
  some ⟨name, width, height, length, List.replicate (width * height * length) 0,
    ⟨0, 0, 0, 0, 0⟩⟩

/-- The level of the spec's scenario: 4×4×4, block 37 is 9, spawn
(2.5, 3.0, 2.5), yaw 90°, pitch 0°. -/
def sampleLevel : Level :=
  ⟨"main", 4, 4, 4, (List.replicate 64 (0 : Byte)).set 37 9, ⟨5 / 2, 3, 5 / 2, 90, 0⟩⟩

/-- A storage rooted at `levels/`. -/
def sampleStorage : LvlStorage := NewLvlStorage "levels/"

/-- An environment in which creating and writing never fail. -/
def sampleWriteEnv : WriteEnv :=
  ⟨fun _ => none, none, .external "write failed", fun _ => 0, fun _ => 0⟩

/-- An environment in which every file opens and decompresses to `s`. -/
def sampleReadEnv (s : List Byte) : ReadEnv :=
  ⟨fun _ => .ok [], fun _ => .ok ⟨s, .EOF⟩, sampleNewLevel⟩

/-- The bytes `Save` writes for `sampleLevel`. -/
def sampleBytes : List Byte :=
  [7, 82, 0, 4, 0, 4, 0, 4, 0, 2, 0, 3, 0, 2, 64, 0, 0, 0] ++ sampleLevel.Blocks

/-- The stream of the spec's scenario with the version field changed from
1874 to 1873: everything after the first two bytes forms a valid level. -/
def wrongVersionBytes : List Byte :=
  [7, 81, 0, 4, 0, 4, 0, 4, 0, 2, 0, 3, 0, 2, 64, 0, 0, 0] ++ sampleLevel.Blocks

/-- The stream of the spec's scenario cut one byte short: a complete header
declaring 4×4×4 and 63 payload bytes. -/
def truncatedBytes : List Byte :=
  [7, 82, 0, 4, 0, 4, 0, 4, 0, 2, 0, 3, 0, 2, 64, 0, 0, 0] ++ List.replicate 63 0

/-- The spec's scenario with the spawn moved out of range: `X` is 65535.5,
above 65535, and `Z` is -0.5, negative. -/
def outOfRangeLevel : Level :=
  { sampleLevel with Spawn := ⟨131071 / 2, 3, -1 / 2, 90, 0⟩ }

/-! ## Auxiliary facts: byte order -/

theorem u16_putU16 (v : Nat) :
    u16 (Fin.ofNat (v / 256)) (Fin.ofNat v) = v % 65536 := by
  simp only [u16, Fin.ofNat]
  omega

theorem byte_val (v : Nat) : ((Fin.ofNat v : Byte)).val = v % 256 := rfl

theorem u16_lt (hi lo : Byte) : u16 hi lo < 65536 := by
  have h1 := hi.isLt
  have h2 := lo.isLt
  simp only [u16]
  omega

theorem encodeHeader_length (h : lvlHeader) : (encodeHeader h).length = 18 := by
  simp [encodeHeader, putU16]

theorem decodeHeader_encodeHeader_append (h : lvlHeader) (rest : List Byte) :
    decodeHeader (encodeHeader h ++ rest) =
      { Version := h.Version % 65536, Width := h.Width % 65536, Height := h.Height % 65536,
        Length := h.Length % 65536, SpawnX := h.SpawnX % 65536, SpawnY := h.SpawnY % 65536,
        SpawnZ := h.SpawnZ % 65536, SpawnYaw := h.SpawnYaw % 256,
        SpawnPitch := h.SpawnPitch % 256, PermissionVisit := h.PermissionVisit % 256,
        PermissionBuild := h.PermissionBuild % 256 } := by
  simp only [decodeHeader, encodeHeader, putU16, List.cons_append, List.nil_append,
    List.getD_cons_zero, List.getD_cons_succ, u16_putU16, byte_val]

theorem decodeHeader_take (bs : List Byte) : decodeHeader (bs.take 18) = decodeHeader bs := by
  have h : ∀ i, i < 18 → (bs.take 18).getD i 0 = bs.getD i 0 := by
    intro i hi
    simp only [List.getD_eq_getElem?_getD, List.getElem?_take, if_pos hi]
  simp only [decodeHeader, h 0 (by norm_num), h 1 (by norm_num), h 2 (by norm_num),
    h 3 (by norm_num), h 4 (by norm_num), h 5 (by norm_num), h 6 (by norm_num),
    h 7 (by norm_num), h 8 (by norm_num), h 9 (by norm_num), h 10 (by norm_num),
    h 11 (by norm_num), h 12 (by norm_num), h 13 (by norm_num), h 14 (by norm_num),
    h 15 (by norm_num), h 16 (by norm_num), h 17 (by norm_num)]

theorem ofNat_u16_hi (hi lo : Byte) : (Fin.ofNat (u16 hi lo / 256) : Byte) = hi := by
  apply Fin.ext
  have h1 := hi.isLt
  have h2 := lo.isLt
  simp only [u16, Fin.ofNat]
  omega

theorem ofNat_u16_lo (hi lo : Byte) : (Fin.ofNat (u16 hi lo) : Byte) = lo := by
  apply Fin.ext
  have h1 := hi.isLt
  have h2 := lo.isLt
  simp only [u16, Fin.ofNat]
  omega

theorem ofNat_val (b : Byte) : (Fin.ofNat b.val : Byte) = b := by
  apply Fin.ext
  have h1 := b.isLt
  simp only [Fin.ofNat]
  omega

theorem encodeHeader_decodeHeader (bs : List Byte) (h : bs.length = 18) :
    encodeHeader (decodeHeader bs) = bs := by
  obtain ⟨b0, b1, b2, b3, b4, b5, b6, b7, b8, b9, b10, b11, b12, b13, b14, b15, b16, b17, rfl⟩ :
      ∃ b0 b1 b2 b3 b4 b5 b6 b7 b8 b9 b10 b11 b12 b13 b14 b15 b16 b17,
        bs = [b0, b1, b2, b3, b4, b5, b6, b7, b8, b9, b10, b11, b12, b13, b14, b15, b16, b17] := by
    match bs, h with
    | [b0, b1, b2, b3, b4, b5, b6, b7, b8, b9, b10, b11, b12, b13, b14, b15, b16, b17], _ =>
      exact ⟨b0, b1, b2, b3, b4, b5, b6, b7, b8, b9, b10, b11, b12, b13, b14, b15, b16, b17, rfl⟩
  simp only [decodeHeader, encodeHeader, putU16, List.cons_append, List.nil_append,
    List.getD_cons_zero, List.getD_cons_succ, ofNat_u16_hi, ofNat_u16_lo, ofNat_val]

/-! ## Auxiliary facts: readers and writers -/

theorem ReadFull_of_le (r : Reader) (n : Nat) (h : n ≤ r.data.length) :
    ReadFull r n = (.ok (r.data.take n), { r with data := r.data.drop n }) := by
  simp only [ReadFull, if_pos h]

theorem ReadFull_of_lt (r : Reader) (n : Nat) (h : r.data.length < n) :
    ReadFull r n =
      (.error (if 0 < r.data.length ∧ r.tail = .EOF then .ErrUnexpectedEOF else r.tail),
       { r with data := [] }) := by
  simp only [ReadFull, if_neg (Nat.not_le.mpr h)]

theorem binaryRead_of_le (r : Reader) (h : 18 ≤ r.data.length) :
    binaryRead r = (.ok (decodeHeader (r.data.take 18)), { r with data := r.data.drop 18 }) := by
  simp only [binaryRead, ReadFull_of_le r 18 h]

theorem binaryRead_of_lt (r : Reader) (h : r.data.length < 18) :
    binaryRead r =
      (.error (if 0 < r.data.length ∧ r.tail = .EOF then .ErrUnexpectedEOF else r.tail),
       { r with data := [] }) := by
  simp only [binaryRead, ReadFull_of_lt r 18 h]

theorem Writer_Write_ok (w : Writer) (p : List Byte) (w' : Writer)
    (h : w.Write p = (none, w')) : w'.out = w.out ++ p := by
  unfold Writer.Write at h
  cases hr : w.room with
  | none =>
    rw [hr] at h
    simp only [Prod.mk.injEq, true_and] at h
    rw [← h]
  | some k =>
    rw [hr] at h
    simp only at h
    split at h
    · simp only [Prod.mk.injEq, true_and] at h
      rw [← h]
    · simp at h

theorem Writer_Write_unbounded (out p : List Byte) (fault : Error) :
    Writer.Write ⟨out, none, fault⟩ p = (none, ⟨out ++ p, none, fault⟩) := by
  simp only [Writer.Write]

/-! ## Auxiliary facts: numeric conversions -/

theorem truncQ_of_nonneg {x : ℚ} (h : 0 ≤ x) : truncQ x = Int.floor x := by
  simp only [truncQ, if_pos h]

theorem truncQ_range {x : ℚ} {n : Int} (hn : 0 < n) (h0 : -1 < x) (h1 : x < n) :
    0 ≤ truncQ x ∧ truncQ x < n := by
  unfold truncQ
  split
  · rename_i hx
    exact ⟨Int.floor_nonneg.mpr hx, Int.floor_lt.mpr h1⟩
  · rename_i hx
    have hx0 : x ≤ ((0 : Int) : ℚ) := by push_cast; exact le_of_lt (not_le.mp hx)
    have h2 : Int.ceil x ≤ 0 := Int.ceil_le.mpr hx0
    have h3 : (-1 : Int) < Int.ceil x := Int.lt_ceil.mpr (by push_cast; exact h0)
    omega

theorem toUint16_of_range (conv : ℚ → Nat) {x : ℚ} (h0 : 0 ≤ x) (h1 : x < 65536) :
    toUint16 conv x = (Int.floor x).toNat := by
  have hf0 : 0 ≤ Int.floor x := Int.floor_nonneg.mpr h0
  have hf1 : Int.floor x < 65536 := Int.floor_lt.mpr (by exact_mod_cast h1)
  simp only [toUint16, truncQ_of_nonneg h0, hf0, hf1, and_self, if_true]

theorem toByte_of_range (conv : ℚ → Nat) {x : ℚ} (h0 : 0 ≤ x) (h1 : x < 256) :
    toByte conv x = (Int.floor x).toNat := by
  have hf0 : 0 ≤ Int.floor x := Int.floor_nonneg.mpr h0
  have hf1 : Int.floor x < 256 := Int.floor_lt.mpr (by exact_mod_cast h1)
  simp only [toByte, truncQ_of_nonneg h0, hf0, hf1, and_self, if_true]

theorem toUint16_of_trunc (conv : ℚ → Nat) {x : ℚ} (h0 : -1 < x) (h1 : x < 65536) :
    toUint16 conv x = (truncQ x).toNat := by
  have h := truncQ_range (n := 65536) (by norm_num) h0 (by exact_mod_cast h1)
  simp only [toUint16, h, and_self, if_true]

theorem toByte_of_trunc (conv : ℚ → Nat) {x : ℚ} (h0 : -1 < x) (h1 : x < 256) :
    toByte conv x = (truncQ x).toNat := by
  have h := truncQ_range (n := 256) (by norm_num) h0 (by exact_mod_cast h1)
  simp only [toByte, h, and_self, if_true]

theorem toUint16_lt (conv : ℚ → Nat) (x : ℚ) : toUint16 conv x < 65536 := by
  unfold toUint16
  split
  · omega
  · exact Nat.mod_lt _ (by norm_num)

theorem toByte_lt (conv : ℚ → Nat) (x : ℚ) : toByte conv x < 256 := by
  unfold toByte
  split
  · omega
  · exact Nat.mod_lt _ (by norm_num)

theorem toUint16_floor (conv : ℚ → Nat) {x : ℚ} (h0 : 0 ≤ x) (h1 : x < 65536) :
    toUint16 conv x = Nat.floor x := by
  rw [toUint16_of_range conv h0 h1, Int.floor_toNat]

theorem toByte_floor (conv : ℚ → Nat) {x : ℚ} (h0 : 0 ≤ x) (h1 : x < 256) :
    toByte conv x = Nat.floor x := by
  rw [toByte_of_range conv h0 h1, Int.floor_toNat]

theorem toUint16_eq_of (conv : ℚ → Nat) {x : ℚ} {n : Nat} (h0 : (n : ℚ) ≤ x)
    (h1 : x < (n : ℚ) + 1) (hn : n < 65536) : toUint16 conv x = n := by
  have hx0 : (0 : ℚ) ≤ x := le_trans (Nat.cast_nonneg n) h0
  have hx1 : x < 65536 := by
    have : (n : ℚ) + 1 ≤ 65536 := by exact_mod_cast hn
    exact lt_of_lt_of_le h1 this
  have hf : Int.floor x = (n : Int) := by
    rw [Int.floor_eq_iff]
    exact ⟨by exact_mod_cast h0, by exact_mod_cast h1⟩
  rw [toUint16_of_range conv hx0 hx1, hf, Int.toNat_ofNat]

theorem toByte_eq_of (conv : ℚ → Nat) {x : ℚ} {n : Nat} (h0 : (n : ℚ) ≤ x)
    (h1 : x < (n : ℚ) + 1) (hn : n < 256) : toByte conv x = n := by
  have hx0 : (0 : ℚ) ≤ x := le_trans (Nat.cast_nonneg n) h0
  have hx1 : x < 256 := by
    have : (n : ℚ) + 1 ≤ 256 := by exact_mod_cast hn
    exact lt_of_lt_of_le h1 this
  have hf : Int.floor x = (n : Int) := by
    rw [Int.floor_eq_iff]
    exact ⟨by exact_mod_cast h0, by exact_mod_cast h1⟩
  rw [toByte_of_range conv hx0 hx1, hf, Int.toNat_ofNat]

theorem toUint16_eq_zero_of (conv : ℚ → Nat) {x : ℚ} (h0 : -1 < x) (h1 : x < 0) :
    toUint16 conv x = 0 := by
  rw [toUint16_of_trunc conv h0 (lt_trans h1 (by norm_num))]
  have h2 : Int.ceil x ≤ 0 := Int.ceil_le.mpr (by push_cast; exact le_of_lt h1)
  have h3 : (-1 : Int) < Int.ceil x := Int.lt_ceil.mpr (by push_cast; exact h0)
  have h4 : truncQ x = Int.ceil x := by
    simp only [truncQ, if_neg (not_le.mpr h1)]
  rw [h4]
  omega

theorem toUint16_natCast (conv : ℚ → Nat) {n : Nat} (hn : n < 65536) :
    toUint16 conv (n : ℚ) = n :=
  toUint16_eq_of conv (le_refl _) (by linarith) hn

theorem toUint16_natCast_add_half (conv : ℚ → Nat) {n : Nat} (hn : n < 65536) :
    toUint16 conv ((n : ℚ) + 1 / 2) = n :=
  toUint16_eq_of conv (by linarith) (by linarith) hn

theorem toByte_angle (conv : ℚ → Nat) {n : Nat} (hn : n < 256) :
    toByte conv ((n : ℚ) * 360 / 256 * 256 / 360) = n := by
  have h : (n : ℚ) * 360 / 256 * 256 / 360 = n := by ring
  rw [h]
  exact toByte_eq_of conv (le_refl _) (by linarith) hn

theorem angle_scaled_range {a : ℚ} (h0 : 0 ≤ a) (h1 : a < 360) :
    0 ≤ a * 256 / 360 ∧ a * 256 / 360 < 256 := by
  constructor
  · positivity
  · rw [div_lt_iff₀ (by norm_num)]
    linarith

theorem angle_quantized {a : ℚ} (h0 : 0 ≤ a) (h1 : a < 360) :
    AngleWithin a ((Nat.floor (a * 256 / 360) : ℚ) * 360 / 256) := by
  have hq := angle_scaled_range h0 h1
  have hb0 : (Nat.floor (a * 256 / 360) : ℚ) ≤ a * 256 / 360 := Nat.floor_le hq.1
  have hb1 : a * 256 / 360 < (Nat.floor (a * 256 / 360) : ℚ) + 1 := Nat.lt_floor_add_one _
  have hbn : (0 : ℚ) ≤ (Nat.floor (a * 256 / 360) : ℚ) := Nat.cast_nonneg _
  refine ⟨?_, ?_, ?_, ?_⟩ <;> linarith

/-! ## Auxiliary facts: the return paths of `Save` -/

theorem Save_of_create_error (env : WriteEnv) (st : LvlStorage) (lv : Level) (e : Error)
    (hc : env.Create (st.getPath lv.Name) = some e) :
    st.Save env lv = ⟨some e, [], []⟩ := by
  simp only [LvlStorage.Save, hc, returning, List.append_nil]

theorem Save_of_header_error (env : WriteEnv) (st : LvlStorage) (lv : Level) (e : Error)
    (w : Writer) (hc : env.Create (st.getPath lv.Name) = none)
    (hw : Writer.Write ⟨[], env.room, env.fault⟩ (encodeHeader (headerOf env lv)) = (some e, w)) :
    st.Save env lv = ⟨some e, w.out,
      [.fileOpened, .filterOpened, .headerMoved, .filterClosed, .fileClosed]⟩ := by
  simp only [LvlStorage.Save, hc, hw, returning, List.cons_append, List.nil_append]

theorem Save_of_header_ok (env : WriteEnv) (st : LvlStorage) (lv : Level)
    (w : Writer) (hc : env.Create (st.getPath lv.Name) = none)
    (hw : Writer.Write ⟨[], env.room, env.fault⟩ (encodeHeader (headerOf env lv)) = (none, w)) :
    st.Save env lv = ⟨(w.Write lv.Blocks).1, (w.Write lv.Blocks).2.out,
      [.fileOpened, .filterOpened, .headerMoved, .blocksMoved, .filterClosed, .fileClosed]⟩ := by
  simp only [LvlStorage.Save, hc, hw, returning, List.cons_append, List.nil_append]

theorem Save_cases (env : WriteEnv) (st : LvlStorage) (lv : Level) :
    (∃ e, env.Create (st.getPath lv.Name) = some e ∧ st.Save env lv = ⟨some e, [], []⟩) ∨
    (env.Create (st.getPath lv.Name) = none ∧
      ((∃ e out, st.Save env lv = ⟨some e, out, headerTrace⟩) ∨
       (∃ e out, st.Save env lv = ⟨e, out, fullTrace⟩))) := by
  rcases hc : env.Create (st.getPath lv.Name) with _ | e
  · refine Or.inr ⟨rfl, ?_⟩
    generalize hw : Writer.Write ⟨[], env.room, env.fault⟩ (encodeHeader (headerOf env lv)) = res
    obtain ⟨e1, w1⟩ := res
    rcases e1 with _ | e
    · exact Or.inr ⟨_, _, Save_of_header_ok env st lv w1 hc hw⟩
    · exact Or.inl ⟨e, _, Save_of_header_error env st lv e w1 hc hw⟩
  · exact Or.inl ⟨e, rfl, Save_of_create_error env st lv e hc⟩

theorem Save_written_of_ok (env : WriteEnv) (st : LvlStorage) (lv : Level)
    (h : (st.Save env lv).err = none) :
    (st.Save env lv).written = encodeHeader (headerOf env lv) ++ lv.Blocks := by
  rcases hc : env.Create (st.getPath lv.Name) with _ | e
  · generalize hw : Writer.Write ⟨[], env.room, env.fault⟩ (encodeHeader (headerOf env lv)) = res
    obtain ⟨e1, w1⟩ := res
    rcases e1 with _ | e
    · rw [Save_of_header_ok env st lv w1 hc hw] at h ⊢
      simp only at h ⊢
      have h2 : w1.Write lv.Blocks = (none, (w1.Write lv.Blocks).2) :=
        Prod.ext h rfl
      rw [Writer_Write_ok _ _ _ h2, Writer_Write_ok _ _ _ hw, List.nil_append]
    · rw [Save_of_header_error env st lv e w1 hc hw] at h
      exact absurd h (Option.some_ne_none e)
  · rw [Save_of_create_error env st lv e hc] at h
    exact absurd h (Option.some_ne_none e)

theorem Save_ok_of_env (env : WriteEnv) (st : LvlStorage) (lv : Level)
    (hc : env.Create (st.getPath lv.Name) = none) (hroom : env.room = none) :
    (st.Save env lv).err = none := by
  have hw : Writer.Write ⟨[], env.room, env.fault⟩ (encodeHeader (headerOf env lv)) =
      (none, ⟨[] ++ encodeHeader (headerOf env lv), none, env.fault⟩) := by
    rw [hroom]; exact Writer_Write_unbounded _ _ _
  rw [Save_of_header_ok env st lv _ hc hw, Writer_Write_unbounded]

theorem Save_trace_mem (env : WriteEnv) (st : LvlStorage) (lv : Level) :
    (st.Save env lv).trace ∈ [[], headerTrace, fullTrace] := by
  rcases Save_cases env st lv with ⟨e, _, h⟩ | ⟨_, ⟨e, out, h⟩ | ⟨e, out, h⟩⟩ <;>
    rw [h] <;> simp

theorem Save_trace_of_created (env : WriteEnv) (st : LvlStorage) (lv : Level)
    (hc : env.Create (st.getPath lv.Name) = none) :
    (st.Save env lv).trace = headerTrace ∨ (st.Save env lv).trace = fullTrace := by
  rcases Save_cases env st lv with ⟨e, h1, _⟩ | ⟨_, ⟨e, out, h⟩ | ⟨e, out, h⟩⟩
  · rw [hc] at h1; cases h1
  · rw [h]; exact Or.inl rfl
  · rw [h]; exact Or.inr rfl

/-! ## Auxiliary facts: the return paths of `Load` -/

theorem Load_of_open_error (env : ReadEnv) (st : LvlStorage) (name : String) (e : Error)
    (ho : env.Open (st.getPath name) = .error e) :
    st.Load env name = ⟨none, some e, []⟩ := by
  simp only [LvlStorage.Load, ho, returning, List.append_nil]

theorem Load_of_reader_error (env : ReadEnv) (st : LvlStorage) (name : String) (e : Error)
    (file : List Byte) (ho : env.Open (st.getPath name) = .ok file)
    (hr : env.NewReader file = .error e) :
    st.Load env name = ⟨none, some e, [.fileOpened, .fileClosed]⟩ := by
  simp only [LvlStorage.Load, ho, hr, returning, List.cons_append, List.nil_append]

theorem Load_of_header_short (env : ReadEnv) (st : LvlStorage) (name : String)
    (file : List Byte) (r : Reader) (ho : env.Open (st.getPath name) = .ok file)
    (hr : env.NewReader file = .ok r) (hs : r.data.length < 18) :
    st.Load env name =
      ⟨none, some (if 0 < r.data.length ∧ r.tail = .EOF then .ErrUnexpectedEOF else r.tail),
        headerTrace⟩ := by
  simp only [LvlStorage.Load, ho, hr, binaryRead_of_lt r hs, returning, List.cons_append,
    List.nil_append, headerTrace]

theorem Load_of_bad_version (env : ReadEnv) (st : LvlStorage) (name : String)
    (file : List Byte) (r : Reader) (ho : env.Open (st.getPath name) = .ok file)
    (hr : env.NewReader file = .ok r) (hs : 18 ≤ r.data.length)
    (hv : (decodeHeader r.data).Version ≠ 1874) :
    st.Load env name = ⟨none, some .invalidFormat, headerTrace⟩ := by
  simp only [LvlStorage.Load, ho, hr, binaryRead_of_le r hs, decodeHeader_take, returning,
    List.cons_append, List.nil_append, headerTrace, ne_eq, hv, not_false_eq_true, if_true]

theorem Load_of_alloc_nil (env : ReadEnv) (st : LvlStorage) (name : String)
    (file : List Byte) (r : Reader) (ho : env.Open (st.getPath name) = .ok file)
    (hr : env.NewReader file = .ok r) (hs : 18 ≤ r.data.length)
    (hv : (decodeHeader r.data).Version = 1874)
    (hmk : env.NewLevel name (decodeHeader r.data).Width (decodeHeader r.data).Height
      (decodeHeader r.data).Length = none) :
    st.Load env name = ⟨none, some .creationFailed, headerTrace⟩ := by
  simp only [LvlStorage.Load, ho, hr, binaryRead_of_le r hs, decodeHeader_take, returning,
    List.cons_append, List.nil_append, headerTrace, ne_eq, hv, not_true_eq_false, if_false, hmk]

theorem Load_of_blocks_short (env : ReadEnv) (st : LvlStorage) (name : String)
    (file : List Byte) (r : Reader) (lv : Level) (ho : env.Open (st.getPath name) = .ok file)
    (hr : env.NewReader file = .ok r) (hs : 18 ≤ r.data.length)
    (hv : (decodeHeader r.data).Version = 1874)
    (hmk : env.NewLevel name (decodeHeader r.data).Width (decodeHeader r.data).Height
      (decodeHeader r.data).Length = some lv)
    (hb : (r.data.drop 18).length < lv.Blocks.length) :
    st.Load env name =
      ⟨none, some (if 0 < (r.data.drop 18).length ∧ r.tail = .EOF then .ErrUnexpectedEOF
        else r.tail), fullTrace⟩ := by
  simp only [LvlStorage.Load, ho, hr, binaryRead_of_le r hs, decodeHeader_take, returning,
    List.cons_append, List.nil_append, fullTrace, ne_eq, hv, not_true_eq_false, if_false, hmk,
    ReadFull_of_lt ⟨r.data.drop 18, r.tail⟩ lv.Blocks.length hb]

theorem Load_of_blocks_ok (env : ReadEnv) (st : LvlStorage) (name : String)
    (file : List Byte) (r : Reader) (lv : Level) (ho : env.Open (st.getPath name) = .ok file)
    (hr : env.NewReader file = .ok r) (hs : 18 ≤ r.data.length)
    (hv : (decodeHeader r.data).Version = 1874)
    (hmk : env.NewLevel name (decodeHeader r.data).Width (decodeHeader r.data).Height
      (decodeHeader r.data).Length = some lv)
    (hb : lv.Blocks.length ≤ (r.data.drop 18).length) :
    st.Load env name =
      ⟨some { lv with Spawn := spawnOf (decodeHeader r.data),
                      Blocks := (r.data.drop 18).take lv.Blocks.length }, none, fullTrace⟩ := by
  simp only [LvlStorage.Load, ho, hr, binaryRead_of_le r hs, decodeHeader_take, returning,
    List.cons_append, List.nil_append, fullTrace, ne_eq, hv, not_true_eq_false, if_false, hmk,
    ReadFull_of_le ⟨r.data.drop 18, r.tail⟩ lv.Blocks.length hb, spawnOf]

theorem Load_cases (env : ReadEnv) (st : LvlStorage) (name : String) :
    (∃ e, env.Open (st.getPath name) = .error e ∧ st.Load env name = ⟨none, some e, []⟩) ∨
    (∃ file e, env.Open (st.getPath name) = .ok file ∧ env.NewReader file = .error e ∧
      st.Load env name = ⟨none, some e, [.fileOpened, .fileClosed]⟩) ∨
    (∃ file r, env.Open (st.getPath name) = .ok file ∧ env.NewReader file = .ok r ∧
      ((∃ e, st.Load env name = ⟨none, some e, headerTrace⟩) ∨
       (∃ e, st.Load env name = ⟨none, some e, fullTrace⟩) ∨
       (∃ lv, st.Load env name = ⟨some lv, none, fullTrace⟩))) := by
  rcases ho : env.Open (st.getPath name) with e | file
  · exact Or.inl ⟨e, rfl, Load_of_open_error env st name e ho⟩
  · rcases hr : env.NewReader file with e | r
    · exact Or.inr (Or.inl ⟨file, e, rfl, hr, Load_of_reader_error env st name e file ho hr⟩)
    · refine Or.inr (Or.inr ⟨file, r, rfl, hr, ?_⟩)
      by_cases hs : 18 ≤ r.data.length
      · by_cases hv : (decodeHeader r.data).Version = 1874
        · rcases hmk : env.NewLevel name (decodeHeader r.data).Width (decodeHeader r.data).Height
            (decodeHeader r.data).Length with _ | lv
          · exact Or.inl ⟨_, Load_of_alloc_nil env st name file r ho hr hs hv hmk⟩
          · by_cases hb : lv.Blocks.length ≤ (r.data.drop 18).length
            · exact Or.inr (Or.inr ⟨_, Load_of_blocks_ok env st name file r lv ho hr hs hv hmk hb⟩)
            · exact Or.inr (Or.inl ⟨_, Load_of_blocks_short env st name file r lv ho hr hs hv hmk
                (Nat.lt_of_not_le hb)⟩)
        · exact Or.inl ⟨_, Load_of_bad_version env st name file r ho hr hs hv⟩
      · exact Or.inl ⟨_, Load_of_header_short env st name file r ho hr (Nat.lt_of_not_le hs)⟩

theorem Load_of_delivered (env : ReadEnv) (st : LvlStorage) (name : String)
    (s : List Byte) (tail : Error) (lv0 : Level)
    (hd : Delivers env (st.getPath name) s tail) (hs : 18 ≤ s.length)
    (hv : (decodeHeader s).Version = 1874)
    (hmk : env.NewLevel name (decodeHeader s).Width (decodeHeader s).Height
      (decodeHeader s).Length = some lv0)
    (hb : lv0.Blocks.length ≤ (s.drop 18).length) :
    st.Load env name =
      ⟨some { lv0 with Spawn := spawnOf (decodeHeader s),
                       Blocks := (s.drop 18).take lv0.Blocks.length }, none, fullTrace⟩ := by
  obtain ⟨file, ho, hr⟩ := hd
  exact Load_of_blocks_ok env st name file ⟨s, tail⟩ lv0 ho hr hs hv hmk hb

/-- What a level returned by `Load` is made of. -/
theorem Load_some_inv (env : ReadEnv) (st : LvlStorage) (name : String)
    (s : List Byte) (tail : Error) (lv : Level)
    (hd : Delivers env (st.getPath name) s tail)
    (hl : (st.Load env name).level = some lv) :
    18 ≤ s.length ∧ (decodeHeader s).Version = 1874 ∧
    ∃ lv0, env.NewLevel name (decodeHeader s).Width (decodeHeader s).Height
        (decodeHeader s).Length = some lv0 ∧
      lv0.Blocks.length ≤ (s.drop 18).length ∧
      lv = { lv0 with Spawn := spawnOf (decodeHeader s),
                      Blocks := (s.drop 18).take lv0.Blocks.length } := by
  obtain ⟨file, ho, hr⟩ := hd
  by_cases hs : 18 ≤ s.length
  · by_cases hv : (decodeHeader s).Version = 1874
    · rcases hmk : env.NewLevel name (decodeHeader s).Width (decodeHeader s).Height
          (decodeHeader s).Length with _ | lv0
      · rw [Load_of_alloc_nil env st name file ⟨s, tail⟩ ho hr hs hv hmk] at hl
        exact absurd hl.symm (Option.some_ne_none lv)
      · by_cases hb : lv0.Blocks.length ≤ (s.drop 18).length
        · rw [Load_of_blocks_ok env st name file ⟨s, tail⟩ lv0 ho hr hs hv hmk hb] at hl
          exact ⟨hs, hv, lv0, rfl, hb, (Option.some.inj hl).symm⟩
        · rw [Load_of_blocks_short env st name file ⟨s, tail⟩ lv0 ho hr hs hv hmk
            (Nat.lt_of_not_le hb)] at hl
          exact absurd hl.symm (Option.some_ne_none lv)
    · rw [Load_of_bad_version env st name file ⟨s, tail⟩ ho hr hs hv] at hl
      exact absurd hl.symm (Option.some_ne_none lv)
  · rw [Load_of_header_short env st name file ⟨s, tail⟩ ho hr (Nat.lt_of_not_le hs)] at hl
    exact absurd hl.symm (Option.some_ne_none lv)

theorem Load_trace_of_reader (env : ReadEnv) (st : LvlStorage) (name : String)
    (file : List Byte) (r : Reader) (ho : env.Open (st.getPath name) = .ok file)
    (hr : env.NewReader file = .ok r) :
    (st.Load env name).trace = headerTrace ∨ (st.Load env name).trace = fullTrace := by
  rcases Load_cases env st name with ⟨e, h1, _⟩ | ⟨f, e, h1, h2, _⟩ |
    ⟨_, _, _, _, ⟨e, h⟩ | ⟨e, h⟩ | ⟨lv, h⟩⟩
  · rw [ho] at h1; cases h1
  · rw [ho] at h1
    cases h1
    rw [hr] at h2; cases h2
  · rw [h]; exact Or.inl rfl
  · rw [h]; exact Or.inr rfl
  · rw [h]; exact Or.inr rfl

theorem Load_trace_mem (env : ReadEnv) (st : LvlStorage) (name : String) :
    (st.Load env name).trace ∈
      [[], [.fileOpened, .fileClosed], headerTrace, fullTrace] := by
  rcases Load_cases env st name with ⟨e, _, h⟩ | ⟨f, e, _, _, h⟩ |
    ⟨_, _, _, _, ⟨e, h⟩ | ⟨e, h⟩ | ⟨lv, h⟩⟩ <;> rw [h] <;> simp

/-! ## Auxiliary facts: headers written and read back -/

theorem headerOf_eq (env : WriteEnv) (lv : Level) {x y z a b : Nat}
    (hx : toUint16 env.conv16 lv.Spawn.X = x) (hy : toUint16 env.conv16 lv.Spawn.Y = y)
    (hz : toUint16 env.conv16 lv.Spawn.Z = z)
    (ha : toByte env.conv8 (lv.Spawn.Yaw * 256 / 360) = a)
    (hb : toByte env.conv8 (lv.Spawn.Pitch * 256 / 360) = b) :
    headerOf env lv =
      ⟨1874, lv.Width % 65536, lv.Height % 65536, lv.Length % 65536, x, y, z, a, b, 0, 0⟩ := by
  simp only [headerOf, hx, hy, hz, ha, hb]

theorem decode_written (env : WriteEnv) (lv : Level) :
    decodeHeader (encodeHeader (headerOf env lv) ++ lv.Blocks) =
      { Version := 1874, Width := lv.Width % 65536, Height := lv.Height % 65536,
        Length := lv.Length % 65536,
        SpawnX := toUint16 env.conv16 lv.Spawn.X,
        SpawnY := toUint16 env.conv16 lv.Spawn.Y,
        SpawnZ := toUint16 env.conv16 lv.Spawn.Z,
        SpawnYaw := toByte env.conv8 (lv.Spawn.Yaw * 256 / 360),
        SpawnPitch := toByte env.conv8 (lv.Spawn.Pitch * 256 / 360),
        PermissionVisit := 0, PermissionBuild := 0 } := by
  rw [decodeHeader_encodeHeader_append]
  simp only [headerOf, Nat.mod_mod, Nat.mod_eq_of_lt (toUint16_lt _ _),
    Nat.mod_eq_of_lt (toByte_lt _ _), Nat.zero_mod, Nat.reduceMod]

/-- The header `Save` builds for a level that `Load` made from the header
`h`. -/
theorem headerOf_loaded (env : WriteEnv) (lv0 : Level) (bs : List Byte) (blocks : List Byte)
    (hv : (decodeHeader bs).Version = 1874)
    (hw : lv0.Width = (decodeHeader bs).Width) (hh : lv0.Height = (decodeHeader bs).Height)
    (hl : lv0.Length = (decodeHeader bs).Length)
    (h1 : (decodeHeader bs).PermissionVisit = 0) (h2 : (decodeHeader bs).PermissionBuild = 0) :
    headerOf env { lv0 with Spawn := spawnOf (decodeHeader bs), Blocks := blocks } =
      decodeHeader bs := by
  have e1 := toUint16_natCast_add_half env.conv16 (u16_lt (bs.getD 8 0) (bs.getD 9 0))
  have e2 := toUint16_natCast env.conv16 (u16_lt (bs.getD 10 0) (bs.getD 11 0))
  have e3 := toUint16_natCast_add_half env.conv16 (u16_lt (bs.getD 12 0) (bs.getD 13 0))
  have e4 := toByte_angle env.conv8 (bs.getD 14 0).isLt
  have e5 := toByte_angle env.conv8 (bs.getD 15 0).isLt
  have b1 := u16_lt (bs.getD 2 0) (bs.getD 3 0)
  have b2 := u16_lt (bs.getD 4 0) (bs.getD 5 0)
  have b3 := u16_lt (bs.getD 6 0) (bs.getD 7 0)
  simp only [decodeHeader] at hv hw hh hl h1 h2 ⊢
  simp only [headerOf, spawnOf, hw, hh, hl, Nat.mod_eq_of_lt b1, Nat.mod_eq_of_lt b2,
    Nat.mod_eq_of_lt b3, e1, e2, e3, e4, e5, hv, h1, h2]

/-- The spawn state read back from what `Save` wrote for `S`. -/
theorem spawn_of_written (env : WriteEnv) (S : Level)
    (hX : 0 ≤ S.Spawn.X ∧ S.Spawn.X < 65536) (hY : 0 ≤ S.Spawn.Y ∧ S.Spawn.Y < 65536)
    (hZ : 0 ≤ S.Spawn.Z ∧ S.Spawn.Z < 65536)
    (hYaw : 0 ≤ S.Spawn.Yaw ∧ S.Spawn.Yaw < 360)
    (hPitch : 0 ≤ S.Spawn.Pitch ∧ S.Spawn.Pitch < 360) :
    spawnOf (decodeHeader (encodeHeader (headerOf env S) ++ S.Blocks)) =
      ⟨(Int.floor S.Spawn.X : ℚ) + 1 / 2, (Int.floor S.Spawn.Y : ℚ),
       (Int.floor S.Spawn.Z : ℚ) + 1 / 2,
       (Nat.floor (S.Spawn.Yaw * 256 / 360) : ℚ) * 360 / 256,
       (Nat.floor (S.Spawn.Pitch * 256 / 360) : ℚ) * 360 / 256⟩ := by
  have hyaw := angle_scaled_range hYaw.1 hYaw.2
  have hpitch := angle_scaled_range hPitch.1 hPitch.2
  rw [decode_written]
  simp only [spawnOf, toUint16_floor env.conv16 hX.1 hX.2, toUint16_floor env.conv16 hY.1 hY.2,
    toUint16_floor env.conv16 hZ.1 hZ.2, toByte_floor env.conv8 hyaw.1 hyaw.2,
    toByte_floor env.conv8 hpitch.1 hpitch.2, natCast_floor_eq_intCast_floor hX.1,
    natCast_floor_eq_intCast_floor hY.1, natCast_floor_eq_intCast_floor hZ.1]

theorem Load_Save_core (wenv : WriteEnv) (renv : ReadEnv) (st : LvlStorage) (S : Level)
    (tail : Error)
    (hW : S.Width ≤ 65535) (hH : S.Height ≤ 65535) (hL : S.Length ≤ 65535)
    (hB : S.Blocks.length = S.Width * S.Height * S.Length)
    (hsave : (st.Save wenv S).err = none)
    (hread : Delivers renv (st.getPath S.Name) (st.Save wenv S).written tail)
    (hmk : Allocates renv.NewLevel S.Name S.Width S.Height S.Length) :
    ∃ lv0, renv.NewLevel S.Name S.Width S.Height S.Length = some lv0 ∧
      lv0.Width = S.Width ∧ lv0.Height = S.Height ∧ lv0.Length = S.Length ∧
      st.Load renv S.Name =
        ⟨some { lv0 with
            Spawn := spawnOf (decodeHeader (encodeHeader (headerOf wenv S) ++ S.Blocks)),
            Blocks := S.Blocks }, none, fullTrace⟩ := by
  obtain ⟨lv0, hmk0, h1, h2, h3, h4⟩ := hmk
  rw [Save_written_of_ok wenv st S hsave] at hread
  have hdec := decodeHeader_encodeHeader_append (headerOf wenv S) S.Blocks
  have hdrop : (encodeHeader (headerOf wenv S) ++ S.Blocks).drop 18 = S.Blocks := by
    rw [← encodeHeader_length (headerOf wenv S)]
    exact List.drop_left' rfl
  have hw : (decodeHeader (encodeHeader (headerOf wenv S) ++ S.Blocks)).Width = S.Width := by
    rw [hdec]; simp only [headerOf]; omega
  have hh : (decodeHeader (encodeHeader (headerOf wenv S) ++ S.Blocks)).Height = S.Height := by
    rw [hdec]; simp only [headerOf]; omega
  have hl : (decodeHeader (encodeHeader (headerOf wenv S) ++ S.Blocks)).Length = S.Length := by
    rw [hdec]; simp only [headerOf]; omega
  have hv : (decodeHeader (encodeHeader (headerOf wenv S) ++ S.Blocks)).Version = 1874 := by
    rw [hdec]; simp only [headerOf]
  have hlen : lv0.Blocks.length = S.Blocks.length := by rw [h4, hB]
  refine ⟨lv0, hmk0, h1, h2, h3, ?_⟩
  have := Load_of_delivered renv st S.Name _ tail lv0 hread
    (by rw [List.length_append, encodeHeader_length]; omega) hv
    (by rw [hw, hh, hl]; exact hmk0) (by rw [hdrop, hlen])
  rw [this, hdrop, hlen, List.take_length]

/-- A successful `Save` of the level `Load` made from the stream `s` writes
`s`. -/
theorem Save_loaded_written (env : WriteEnv) (st : LvlStorage) (lv0 : Level) (s : List Byte)
    (hs : 18 ≤ s.length) (hv : (decodeHeader s).Version = 1874)
    (hw : lv0.Width = (decodeHeader s).Width) (hh : lv0.Height = (decodeHeader s).Height)
    (hl : lv0.Length = (decodeHeader s).Length)
    (h1 : (decodeHeader s).PermissionVisit = 0) (h2 : (decodeHeader s).PermissionBuild = 0)
    (hsave : (st.Save env { lv0 with Spawn := spawnOf (decodeHeader s),
                                     Blocks := s.drop 18 }).err = none) :
    (st.Save env { lv0 with Spawn := spawnOf (decodeHeader s),
                            Blocks := s.drop 18 }).written = s := by
  rw [Save_written_of_ok env st _ hsave, headerOf_loaded env lv0 s _ hv hw hh hl h1 h2,
    ← decodeHeader_take s, encodeHeader_decodeHeader _ (List.length_take_of_le hs)]
  exact List.take_append_drop 18 s

/-! ## Auxiliary facts: the sample inputs -/

theorem sample_allocates : Allocates sampleNewLevel "main" 4 4 4 :=
  ⟨_, rfl, rfl, rfl, rfl, List.length_replicate _ _⟩

theorem sample_sized : SizedBuffers sampleNewLevel := by
  intro name w h l lv hlv
  rw [← Option.some.inj hlv]
  exact List.length_replicate _ _

theorem sample_save_ok : (sampleStorage.Save sampleWriteEnv sampleLevel).err = none :=
  Save_ok_of_env sampleWriteEnv sampleStorage sampleLevel rfl rfl

theorem sample_delivers (s : List Byte) (path : String) :
    Delivers (sampleReadEnv s) path s .EOF := ⟨[], rfl, rfl⟩

/-- The bytes of the spec's scenario are what `Save` writes for it. -/
theorem sample_written :
    (sampleStorage.Save sampleWriteEnv sampleLevel).written = sampleBytes := by
  rw [Save_written_of_ok _ _ _ sample_save_ok,
    headerOf_eq sampleWriteEnv sampleLevel
      (toUint16_eq_of (n := 2) _ (by norm_num [sampleLevel])
        (by norm_num [sampleLevel]) (by norm_num))
      (toUint16_eq_of (n := 3) _ (by norm_num [sampleLevel])
        (by norm_num [sampleLevel]) (by norm_num))
      (toUint16_eq_of (n := 2) _ (by norm_num [sampleLevel])
        (by norm_num [sampleLevel]) (by norm_num))
      (toByte_eq_of (n := 64) _ (by norm_num [sampleLevel])
        (by norm_num [sampleLevel]) (by norm_num))
      (toByte_eq_of (n := 0) _ (by norm_num [sampleLevel])
        (by norm_num [sampleLevel]) (by norm_num))]
  rfl

/-! ## C1: round trip of dimensions and blocks -/

/-- C1. Round trip of dimensions and blocks: for a level whose dimensions lie
in [1, 65535] and whose block buffer has `Width * Height * Length` bytes (any
spawn state), if `Save` succeeds, the gzip reader delivers the bytes `Save`
wrote, and `gomcc.NewLevel` allocates as assumed, then `Load` returns a level
and no error, and that level has the same `Width`, `Height`, `Length` and
`Blocks`. -/
theorem Load_Save_dims_blocks (wenv : WriteEnv) (renv : ReadEnv) (st : LvlStorage)
    (S : Level) (tail : Error)
    (hW : 1 ≤ S.Width ∧ S.Width ≤ 65535) (hH : 1 ≤ S.Height ∧ S.Height ≤ 65535)
    (hL : 1 ≤ S.Length ∧ S.Length ≤ 65535)
    (hB : S.Blocks.length = S.Width * S.Height * S.Length)
    (hsave : (st.Save wenv S).err = none)
    (hread : Delivers renv (st.getPath S.Name) (st.Save wenv S).written tail)
    (hmk : Allocates renv.NewLevel S.Name S.Width S.Height S.Length) :
    ∃ lv, (st.Load renv S.Name).level = some lv ∧ (st.Load renv S.Name).err = none ∧
      lv.Width = S.Width ∧ lv.Height = S.Height ∧ lv.Length = S.Length ∧
      lv.Blocks = S.Blocks := by
  obtain ⟨lv0, _, h1, h2, h3, hload⟩ :=
    Load_Save_core wenv renv st S tail hW.2 hH.2 hL.2 hB hsave hread hmk
  rw [hload]
  exact ⟨_, rfl, rfl, h1, h2, h3, rfl⟩

/-- C1 at the spec's scenario. -/
theorem Load_Save_dims_blocks_witness :
    ∃ lv, (sampleStorage.Load
        (sampleReadEnv (sampleStorage.Save sampleWriteEnv sampleLevel).written) "main").level
          = some lv ∧
      (sampleStorage.Load
        (sampleReadEnv (sampleStorage.Save sampleWriteEnv sampleLevel).written) "main").err
          = none ∧
      lv.Width = 4 ∧ lv.Height = 4 ∧ lv.Length = 4 ∧ lv.Blocks = sampleLevel.Blocks :=
  Load_Save_dims_blocks sampleWriteEnv
    (sampleReadEnv (sampleStorage.Save sampleWriteEnv sampleLevel).written)
    sampleStorage sampleLevel .EOF (by decide) (by decide) (by decide) (by decide)
    sample_save_ok (sample_delivers _ _) sample_allocates

/-! ## C2: version gate -/

/-- C2. Version gate: when the decompressed stream holds a complete header
(at least 18 bytes) whose first big-endian 16-bit field is not 1874, `Load`
returns no level and the error "lvlstorage: invalid format", whatever the
other header fields, the payload and `gomcc.NewLevel` are. -/
theorem Load_version_gate (env : ReadEnv) (st : LvlStorage) (name : String)
    (s : List Byte) (tail : Error)
    (hread : Delivers env (st.getPath name) s tail) (hlen : 18 ≤ s.length)
    (hv : u16 (s.getD 0 0) (s.getD 1 0) ≠ 1874) :
    (st.Load env name).level = none ∧ (st.Load env name).err = some .invalidFormat ∧
      (st.Load env name).err.map Error.message = some "lvlstorage: invalid format" := by
  obtain ⟨file, ho, hr⟩ := hread
  rw [Load_of_bad_version env st name file ⟨s, tail⟩ ho hr hlen hv]
  exact ⟨rfl, rfl, rfl⟩

/-- C2 at a stream that is a valid level but for its version, 1873. -/
theorem Load_version_gate_witness :
    (sampleStorage.Load (sampleReadEnv wrongVersionBytes) "main").level = none ∧
      (sampleStorage.Load (sampleReadEnv wrongVersionBytes) "main").err
        = some .invalidFormat ∧
      (sampleStorage.Load (sampleReadEnv wrongVersionBytes) "main").err.map Error.message
        = some "lvlstorage: invalid format" :=
  Load_version_gate (sampleReadEnv wrongVersionBytes) sampleStorage "main"
    wrongVersionBytes .EOF (sample_delivers _ _) (by decide) (by decide)

/-! ## C3: truncation -/

/-- C3. Truncation: when the stream holds a complete header with version 1874
followed by fewer than `Width * Height * Length` payload bytes, and every
level `gomcc.NewLevel` returns has a buffer of that many bytes, `Load` returns
an error and no level. -/
theorem Load_truncated (env : ReadEnv) (st : LvlStorage) (name : String)
    (s : List Byte) (tail : Error)
    (hread : Delivers env (st.getPath name) s tail) (hlen : 18 ≤ s.length)
    (hv : (decodeHeader s).Version = 1874)
    (hshort : s.length - 18 <
      (decodeHeader s).Width * (decodeHeader s).Height * (decodeHeader s).Length)
    (hmk : SizedBuffers env.NewLevel) :
    (st.Load env name).level = none ∧ (st.Load env name).err ≠ none := by
  obtain ⟨file, ho, hr⟩ := hread
  rcases hnew : env.NewLevel name (decodeHeader s).Width (decodeHeader s).Height
      (decodeHeader s).Length with _ | lv0
  · rw [Load_of_alloc_nil env st name file ⟨s, tail⟩ ho hr hlen hv hnew]
    exact ⟨rfl, Option.some_ne_none _⟩
  · have hb : (s.drop 18).length < lv0.Blocks.length := by
      rw [hmk _ _ _ _ _ hnew, List.length_drop]
      exact hshort
    rw [Load_of_blocks_short env st name file ⟨s, tail⟩ lv0 ho hr hlen hv hnew hb]
    exact ⟨rfl, Option.some_ne_none _⟩

/-- C3 at a 4×4×4 header followed by 63 bytes. -/
theorem Load_truncated_witness :
    (sampleStorage.Load (sampleReadEnv truncatedBytes) "main").level = none ∧
      (sampleStorage.Load (sampleReadEnv truncatedBytes) "main").err ≠ none :=
  Load_truncated (sampleReadEnv truncatedBytes) sampleStorage "main" truncatedBytes .EOF
    (sample_delivers _ _) (by decide) (by decide) (by decide) sample_sized

/-! ## C4: atomicity of decode failure -/

/-- C4. Atomicity of decode failure: on every return path of `Load`, a non-nil
error comes with a nil level and a nil error with a non-nil level. -/
theorem Load_error_xor_level (env : ReadEnv) (st : LvlStorage) (name : String) :
    ((st.Load env name).err ≠ none → (st.Load env name).level = none) ∧
    ((st.Load env name).err = none → (st.Load env name).level ≠ none) := by
  rcases Load_cases env st name with ⟨e, _, h⟩ | ⟨_, e, _, _, h⟩ |
    ⟨_, _, _, _, ⟨e, h⟩ | ⟨e, h⟩ | ⟨lv, h⟩⟩
  · rw [h]; exact ⟨fun _ => rfl, fun h0 => absurd h0 (Option.some_ne_none e)⟩
  · rw [h]; exact ⟨fun _ => rfl, fun h0 => absurd h0 (Option.some_ne_none e)⟩
  · rw [h]; exact ⟨fun _ => rfl, fun h0 => absurd h0 (Option.some_ne_none e)⟩
  · rw [h]; exact ⟨fun _ => rfl, fun h0 => absurd h0 (Option.some_ne_none e)⟩
  · rw [h]; exact ⟨fun h0 => absurd rfl h0, fun _ => Option.some_ne_none lv⟩

/-! ## C5: spawn coordinates out of range -/

/-- C5 fails on the code: a level whose spawn `X` is 65535.5 and whose spawn
`Z` is -0.5 is saved without error, all 82 bytes written, with the fields
65535 (bytes 255, 255) and 0. -/
theorem Save_range_counterexample :
    65535 < outOfRangeLevel.Spawn.X ∧ outOfRangeLevel.Spawn.Z < 0 ∧
    (sampleStorage.Save sampleWriteEnv outOfRangeLevel).err = none ∧
    (sampleStorage.Save sampleWriteEnv outOfRangeLevel).written =
      [7, 82, 0, 4, 0, 4, 0, 4, 255, 255, 0, 3, 0, 0, 64, 0, 0, 0] ++
        outOfRangeLevel.Blocks := by
  have hok : (sampleStorage.Save sampleWriteEnv outOfRangeLevel).err = none :=
    Save_ok_of_env sampleWriteEnv sampleStorage outOfRangeLevel rfl rfl
  refine ⟨by norm_num [outOfRangeLevel], by norm_num [outOfRangeLevel], hok, ?_⟩
  rw [Save_written_of_ok _ _ _ hok,
    headerOf_eq sampleWriteEnv outOfRangeLevel
      (toUint16_eq_of (n := 65535) _ (by norm_num [outOfRangeLevel])
        (by norm_num [outOfRangeLevel]) (by norm_num))
      (toUint16_eq_of (n := 3) _ (by norm_num [outOfRangeLevel])
        (by norm_num [outOfRangeLevel]) (by norm_num))
      (toUint16_eq_zero_of _ (by norm_num [outOfRangeLevel]) (by norm_num [outOfRangeLevel]))
      (toByte_eq_of (n := 64) _ (by norm_num [outOfRangeLevel])
        (by norm_num [outOfRangeLevel]) (by norm_num))
      (toByte_eq_of (n := 0) _ (by norm_num [outOfRangeLevel])
        (by norm_num [outOfRangeLevel]) (by norm_num))]
  rfl

/-- C5, as the code has it: `Save` has no range check.  Whatever the spawn
coordinates are, when the file is created and the writes succeed `Save`
returns no error and writes the 18-byte header and the blocks; each spawn
field holds the `uint16` conversion of its coordinate, which is the coordinate
truncated toward zero whenever that fits, that is for `-1 < x < 65536`. -/
theorem Save_narrows_spawn (env : WriteEnv) (st : LvlStorage) (lv : Level)
    (hc : env.Create (st.getPath lv.Name) = none) (hroom : env.room = none) :
    (st.Save env lv).err = none ∧
    (st.Save env lv).written.length = 18 + lv.Blocks.length ∧
    (decodeHeader (st.Save env lv).written).SpawnX = toUint16 env.conv16 lv.Spawn.X ∧
    (decodeHeader (st.Save env lv).written).SpawnY = toUint16 env.conv16 lv.Spawn.Y ∧
    (decodeHeader (st.Save env lv).written).SpawnZ = toUint16 env.conv16 lv.Spawn.Z ∧
    (∀ x : ℚ, -1 < x → x < 65536 → toUint16 env.conv16 x = (truncQ x).toNat) := by
  have hok := Save_ok_of_env env st lv hc hroom
  rw [Save_written_of_ok env st lv hok, decode_written, List.length_append,
    encodeHeader_length]
  exact ⟨hok, rfl, rfl, rfl, rfl, fun x h0 h1 => toUint16_of_trunc env.conv16 h0 h1⟩

/-- C5 as amended, at the out-of-range level. -/
theorem Save_narrows_spawn_witness :
    (sampleStorage.Save sampleWriteEnv outOfRangeLevel).err = none ∧
    (sampleStorage.Save sampleWriteEnv outOfRangeLevel).written.length =
      18 + outOfRangeLevel.Blocks.length ∧
    (decodeHeader (sampleStorage.Save sampleWriteEnv outOfRangeLevel).written).SpawnX =
      toUint16 sampleWriteEnv.conv16 outOfRangeLevel.Spawn.X ∧
    (decodeHeader (sampleStorage.Save sampleWriteEnv outOfRangeLevel).written).SpawnY =
      toUint16 sampleWriteEnv.conv16 outOfRangeLevel.Spawn.Y ∧
    (decodeHeader (sampleStorage.Save sampleWriteEnv outOfRangeLevel).written).SpawnZ =
      toUint16 sampleWriteEnv.conv16 outOfRangeLevel.Spawn.Z ∧
    (∀ x : ℚ, -1 < x → x < 65536 → toUint16 sampleWriteEnv.conv16 x = (truncQ x).toNat) :=
  Save_narrows_spawn sampleWriteEnv sampleStorage outOfRangeLevel rfl rfl

/-! ## C6: layout of the written bytes -/

/-- C6. Bit-exact layout: for a level with dimensions in [1, 65535], spawn
coordinates in [0, 65535] and angles in [0, 360), the bytes a successful
`Save` writes are, in this order, the big-endian 16-bit values 1874 (bytes
7, 82), `Width`, `Height`, `Length`, `⌊X⌋`, `⌊Y⌋`, `⌊Z⌋`, the bytes
`⌊Yaw * 256 / 360⌋` and `⌊Pitch * 256 / 360⌋`, two zero bytes, and then
`Blocks` unchanged: 18 + `len(Blocks)` bytes in all. -/
theorem Save_layout (env : WriteEnv) (st : LvlStorage) (S : Level)
    (hW : 1 ≤ S.Width ∧ S.Width ≤ 65535) (hH : 1 ≤ S.Height ∧ S.Height ≤ 65535)
    (hL : 1 ≤ S.Length ∧ S.Length ≤ 65535)
    (hX : 0 ≤ S.Spawn.X ∧ S.Spawn.X ≤ 65535) (hY : 0 ≤ S.Spawn.Y ∧ S.Spawn.Y ≤ 65535)
    (hZ : 0 ≤ S.Spawn.Z ∧ S.Spawn.Z ≤ 65535)
    (hYaw : 0 ≤ S.Spawn.Yaw ∧ S.Spawn.Yaw < 360)
    (hPitch : 0 ≤ S.Spawn.Pitch ∧ S.Spawn.Pitch < 360)
    (hsave : (st.Save env S).err = none) :
    (st.Save env S).written =
      putU16 1874 ++ putU16 S.Width ++ putU16 S.Height ++ putU16 S.Length ++
      putU16 (Nat.floor S.Spawn.X) ++ putU16 (Nat.floor S.Spawn.Y) ++
      putU16 (Nat.floor S.Spawn.Z) ++
      [Fin.ofNat (Nat.floor (S.Spawn.Yaw * 256 / 360)),
       Fin.ofNat (Nat.floor (S.Spawn.Pitch * 256 / 360)), 0, 0] ++ S.Blocks ∧
    putU16 1874 = [7, 82] ∧
    (st.Save env S).written.length = 18 + S.Blocks.length ∧
    (st.Save env S).written.drop 18 = S.Blocks := by
  have hyaw := angle_scaled_range hYaw.1 hYaw.2
  have hpitch := angle_scaled_range hPitch.1 hPitch.2
  have hhdr := headerOf_eq env S
    (toUint16_floor env.conv16 hX.1 (lt_of_le_of_lt hX.2 (by norm_num)))
    (toUint16_floor env.conv16 hY.1 (lt_of_le_of_lt hY.2 (by norm_num)))
    (toUint16_floor env.conv16 hZ.1 (lt_of_le_of_lt hZ.2 (by norm_num)))
    (toByte_floor env.conv8 hyaw.1 hyaw.2) (toByte_floor env.conv8 hpitch.1 hpitch.2)
  rw [Nat.mod_eq_of_lt (show S.Width < 65536 by omega),
    Nat.mod_eq_of_lt (show S.Height < 65536 by omega),
    Nat.mod_eq_of_lt (show S.Length < 65536 by omega)] at hhdr
  rw [Save_written_of_ok env st S hsave, hhdr]
  refine ⟨rfl, rfl, ?_, ?_⟩
  · rw [List.length_append, encodeHeader_length]
  · exact List.drop_left' (encodeHeader_length _)

/-- C6 at the spec's scenario: the header bytes are
7 82, 0 4, 0 4, 0 4, 0 2, 0 3, 0 2, 64, 0, 0, 0. -/
theorem Save_layout_witness :
    (sampleStorage.Save sampleWriteEnv sampleLevel).written =
      putU16 1874 ++ putU16 4 ++ putU16 4 ++ putU16 4 ++
      putU16 (Nat.floor ((5 : ℚ) / 2)) ++ putU16 (Nat.floor (3 : ℚ)) ++
      putU16 (Nat.floor ((5 : ℚ) / 2)) ++
      [Fin.ofNat (Nat.floor ((90 : ℚ) * 256 / 360)),
       Fin.ofNat (Nat.floor ((0 : ℚ) * 256 / 360)), 0, 0] ++ sampleLevel.Blocks ∧
    putU16 1874 = [7, 82] ∧
    (sampleStorage.Save sampleWriteEnv sampleLevel).written.length =
      18 + sampleLevel.Blocks.length ∧
    (sampleStorage.Save sampleWriteEnv sampleLevel).written.drop 18 = sampleLevel.Blocks :=
  Save_layout sampleWriteEnv sampleStorage sampleLevel (by decide) (by decide) (by decide)
    (by norm_num [sampleLevel]) (by norm_num [sampleLevel]) (by norm_num [sampleLevel])
    (by norm_num [sampleLevel]) (by norm_num [sampleLevel]) sample_save_ok

/-! ## C7: spawn quantization over a round trip -/

/-- C7. Spawn quantization over a round trip, over exact rationals: for a
level with spawn coordinates in [0, 65536) and angles in [0, 360), whenever
`Load` returns a level from what a successful `Save` wrote, that level has
`Spawn.X = ⌊X⌋ + 0.5`, `Spawn.Y = ⌊Y⌋`, `Spawn.Z = ⌊Z⌋ + 0.5`, and a yaw and
pitch equal to `⌊a * 256 / 360⌋ * 360 / 256` for the stored angle `a`, which
lies in [0, 360), is not greater than `a` and is less than 360/256 below it;
and `Load` does return a level when the dimensions are in [1, 65535], the
buffer has `Width * Height * Length` bytes and `gomcc.NewLevel` allocates. -/
theorem Load_Save_spawn (wenv : WriteEnv) (renv : ReadEnv) (st : LvlStorage)
    (S : Level) (tail : Error)
    (hX : 0 ≤ S.Spawn.X ∧ S.Spawn.X < 65536) (hY : 0 ≤ S.Spawn.Y ∧ S.Spawn.Y < 65536)
    (hZ : 0 ≤ S.Spawn.Z ∧ S.Spawn.Z < 65536)
    (hYaw : 0 ≤ S.Spawn.Yaw ∧ S.Spawn.Yaw < 360)
    (hPitch : 0 ≤ S.Spawn.Pitch ∧ S.Spawn.Pitch < 360)
    (hsave : (st.Save wenv S).err = none)
    (hread : Delivers renv (st.getPath S.Name) (st.Save wenv S).written tail) :
    (∀ lv, (st.Load renv S.Name).level = some lv →
      lv.Spawn.X = (Int.floor S.Spawn.X : ℚ) + 1 / 2 ∧
      lv.Spawn.Y = (Int.floor S.Spawn.Y : ℚ) ∧
      lv.Spawn.Z = (Int.floor S.Spawn.Z : ℚ) + 1 / 2 ∧
      lv.Spawn.Yaw = (Nat.floor (S.Spawn.Yaw * 256 / 360) : ℚ) * 360 / 256 ∧
      lv.Spawn.Pitch = (Nat.floor (S.Spawn.Pitch * 256 / 360) : ℚ) * 360 / 256 ∧
      AngleWithin S.Spawn.Yaw lv.Spawn.Yaw ∧ AngleWithin S.Spawn.Pitch lv.Spawn.Pitch) ∧
    ((1 ≤ S.Width ∧ S.Width ≤ 65535) → (1 ≤ S.Height ∧ S.Height ≤ 65535) →
      (1 ≤ S.Length ∧ S.Length ≤ 65535) →
      S.Blocks.length = S.Width * S.Height * S.Length →
      Allocates renv.NewLevel S.Name S.Width S.Height S.Length →
      ∃ lv, (st.Load renv S.Name).level = some lv ∧ (st.Load renv S.Name).err = none) := by
  constructor
  · intro lv hlv
    have hread2 := hread
    rw [Save_written_of_ok wenv st S hsave] at hread2
    obtain ⟨_, _, lv0, _, _, hlv0⟩ := Load_some_inv renv st S.Name _ tail lv hread2 hlv
    have hsp : lv.Spawn = spawnOf (decodeHeader (encodeHeader (headerOf wenv S) ++ S.Blocks)) := by
      rw [hlv0]
    rw [spawn_of_written wenv S hX hY hZ hYaw hPitch] at hsp
    rw [hsp]
    exact ⟨rfl, rfl, rfl, rfl, rfl, angle_quantized hYaw.1 hYaw.2,
      angle_quantized hPitch.1 hPitch.2⟩
  · intro hW hH hL hB hmk
    obtain ⟨lv0, _, _, _, _, hload⟩ :=
      Load_Save_core wenv renv st S tail hW.2 hH.2 hL.2 hB hsave hread hmk
    rw [hload]
    exact ⟨_, rfl, rfl⟩

/-- C7 at the spec's scenario: spawn (2.5, 3.0, 2.5), yaw 90, pitch 0 loads
back as (2.5, 3.0, 2.5), yaw 90, pitch 0. -/
theorem Load_Save_spawn_witness :
    ∃ lv, (sampleStorage.Load
        (sampleReadEnv (sampleStorage.Save sampleWriteEnv sampleLevel).written) "main").level
          = some lv ∧
      (sampleStorage.Load
        (sampleReadEnv (sampleStorage.Save sampleWriteEnv sampleLevel).written) "main").err
          = none ∧
      lv.Spawn = ⟨5 / 2, 3, 5 / 2, 90, 0⟩ ∧
      AngleWithin 90 lv.Spawn.Yaw ∧ AngleWithin 0 lv.Spawn.Pitch := by
  have h := Load_Save_spawn sampleWriteEnv
    (sampleReadEnv (sampleStorage.Save sampleWriteEnv sampleLevel).written)
    sampleStorage sampleLevel .EOF (by norm_num [sampleLevel]) (by norm_num [sampleLevel])
    (by norm_num [sampleLevel]) (by norm_num [sampleLevel]) (by norm_num [sampleLevel])
    sample_save_ok (sample_delivers _ _)
  obtain ⟨lv, hlv, herr⟩ := h.2 (by decide) (by decide) (by decide) (by decide)
    sample_allocates
  obtain ⟨hx, hy, hz, hyaw, hpitch, ha, hb⟩ := h.1 lv hlv
  refine ⟨lv, hlv, herr, ?_, ha, hb⟩
  have e1 : Int.floor ((5 : ℚ) / 2) = 2 := by rw [Int.floor_eq_iff]; norm_num
  have e2 : Int.floor (3 : ℚ) = 3 := by rw [Int.floor_eq_iff]; norm_num
  have e3 : Nat.floor ((90 : ℚ) * 256 / 360) = 64 := by
    rw [Nat.floor_eq_iff (by norm_num)]; norm_num
  have e4 : Nat.floor ((0 : ℚ) * 256 / 360) = 0 := by
    rw [Nat.floor_eq_iff (by norm_num)]; norm_num
  simp only [sampleLevel, e1, e2, e3, e4] at hx hy hz hyaw hpitch
  rcases lv with ⟨_, _, _, _, _, ⟨x, y, z, yaw, pitch⟩⟩
  simp only at hx hy hz hyaw hpitch
  simp only [Location.mk.injEq]
  refine ⟨?_, ?_, ?_, ?_, ?_⟩
  · rw [hx]; norm_num
  · rw [hy]; norm_num
  · rw [hz]; norm_num
  · rw [hyaw]; norm_num
  · rw [hpitch]; norm_num

/-! ## C8: release order -/

/-- C8. Release order: on every return of `Save` after the file was created,
and on every return of `Load` after the gzip reader was created, the filter is
closed exactly once and strictly before the file, which is closed exactly
once; when creating the gzip reader fails `Load` still closes the file once
(and no filter); and on no return of either function is the filter closed at
or after the first close of the file. -/
theorem release_order :
    (∀ (env : WriteEnv) (st : LvlStorage) (lv : Level),
      env.Create (st.getPath lv.Name) = none → ClosedInOrder (st.Save env lv).trace) ∧
    (∀ (env : ReadEnv) (st : LvlStorage) (name : String) (file : List Byte) (r : Reader),
      env.Open (st.getPath name) = .ok file → env.NewReader file = .ok r →
      ClosedInOrder (st.Load env name).trace) ∧
    (∀ (env : ReadEnv) (st : LvlStorage) (name : String) (file : List Byte) (e : Error),
      env.Open (st.getPath name) = .ok file → env.NewReader file = .error e →
      (st.Load env name).trace.count .fileClosed = 1 ∧
        (st.Load env name).trace.count .filterClosed = 0) ∧
    (∀ (env : ReadEnv) (st : LvlStorage) (name : String),
      Event.filterClosed ∉ fromFileClose (st.Load env name).trace) ∧
    (∀ (env : WriteEnv) (st : LvlStorage) (lv : Level),
      Event.filterClosed ∉ fromFileClose (st.Save env lv).trace) := by
  refine ⟨?_, ?_, ?_, ?_, ?_⟩
  · intro env st lv hc
    rcases Save_trace_of_created env st lv hc with h | h <;> rw [h] <;>
      unfold ClosedInOrder <;> decide
  · intro env st name file r ho hr
    rcases Load_trace_of_reader env st name file r ho hr with h | h <;> rw [h] <;>
      unfold ClosedInOrder <;> decide
  · intro env st name file e ho hr
    rw [Load_of_reader_error env st name e file ho hr]
    dsimp only
    decide
  · intro env st name
    have h := Load_trace_mem env st name
    simp only [List.mem_cons, List.mem_singleton, List.not_mem_nil, or_false] at h
    rcases h with h | h | h | h <;> rw [h] <;> decide
  · intro env st lv
    have h := Save_trace_mem env st lv
    simp only [List.mem_cons, List.mem_singleton, List.not_mem_nil, or_false] at h
    rcases h with h | h | h <;> rw [h] <;> decide

/-! ## C9: path resolution -/

/-- C9, the code at the root `levels` and the level `main`: the storage made
by `NewLvlStorage` has `levels` as its directory, and `getPath` returns
`levelsmain.lvl`, a name beside that directory, where the path of the level
inside it is `levels/main.lvl`. -/
theorem getPath_missing_separator :
    (NewLvlStorage "levels").dirPath = "levels" ∧
    (NewLvlStorage "levels").getPath "main" = "levelsmain.lvl" ∧
    (NewLvlStorage "levels").getPath "main" ≠ "levels" ++ "/" ++ "main" ++ ".lvl" := by
  refine ⟨rfl, ?_, ?_⟩
  · decide
  · decide

/-! ## C10: decode then encode on canonical streams -/

/-- C10. Decode then encode is the identity on canonical streams: for a
stream of exactly 18 + `Width * Height * Length` bytes whose header has
version 1874 and both reserved bytes zero (any dimensions, those of at least
1 among them, and any spawn fields), `Load` returns a level and no error when
`gomcc.NewLevel` allocates; a `Save` of that level whose file is created and
whose writes do not fail returns no error and writes the stream back byte for
byte, as does every `Save` of it that returns no error; in particular
`byte((b * 360 / 256) * 256 / 360) = b` for every byte `b` and
`uint16(x + 0.5) = x` for every 16-bit `x`. -/
theorem Save_Load_canonical (env : ReadEnv) (st : LvlStorage) (name : String)
    (s : List Byte) (tail : Error)
    (hread : Delivers env (st.getPath name) s tail)
    (hv : (decodeHeader s).Version = 1874)
    (hr1 : (decodeHeader s).PermissionVisit = 0) (hr2 : (decodeHeader s).PermissionBuild = 0)
    (hlen : s.length =
      18 + (decodeHeader s).Width * (decodeHeader s).Height * (decodeHeader s).Length)
    (hmk : Allocates env.NewLevel name (decodeHeader s).Width (decodeHeader s).Height
      (decodeHeader s).Length) :
    (∃ lv, (st.Load env name).level = some lv ∧ (st.Load env name).err = none ∧
      ∀ (wenv : WriteEnv) (st2 : LvlStorage),
        (wenv.Create (st2.getPath lv.Name) = none → wenv.room = none →
          (st2.Save wenv lv).err = none ∧ (st2.Save wenv lv).written = s) ∧
        ((st2.Save wenv lv).err = none → (st2.Save wenv lv).written = s)) ∧
    (∀ (conv : ℚ → Nat) (b : Byte), toByte conv ((b.val : ℚ) * 360 / 256 * 256 / 360) = b.val) ∧
    (∀ (conv : ℚ → Nat) (x : Nat), x < 65536 → toUint16 conv ((x : ℚ) + 1 / 2) = x) := by
  refine ⟨?_, fun conv b => toByte_angle conv b.isLt,
    fun conv x hx => toUint16_natCast_add_half conv hx⟩
  obtain ⟨lv0, hmk0, h1, h2, h3, h4⟩ := hmk
  have hs18 : 18 ≤ s.length := by omega
  have hdrop : (s.drop 18).length = lv0.Blocks.length := by
    rw [List.length_drop, h4]; omega
  have hload := Load_of_delivered env st name s tail lv0 hread hs18 hv hmk0 (le_of_eq hdrop.symm)
  rw [← hdrop, List.take_length] at hload
  rw [hload]
  refine ⟨_, rfl, rfl, ?_⟩
  intro wenv st2
  exact ⟨fun hc hroom => ⟨Save_ok_of_env wenv st2 _ hc hroom,
      Save_loaded_written wenv st2 lv0 s hs18 hv h1 h2 h3 hr1 hr2
        (Save_ok_of_env wenv st2 _ hc hroom)⟩,
    Save_loaded_written wenv st2 lv0 s hs18 hv h1 h2 h3 hr1 hr2⟩

/-- C10 at the stream of the spec's scenario: `Load` returns a level, and
saving that level where nothing fails returns no error and writes the same
82 bytes. -/
theorem Save_Load_canonical_witness :
    ∃ lv, (sampleStorage.Load (sampleReadEnv sampleBytes) "main").level = some lv ∧
      (sampleStorage.Load (sampleReadEnv sampleBytes) "main").err = none ∧
      (sampleStorage.Save sampleWriteEnv lv).err = none ∧
      (sampleStorage.Save sampleWriteEnv lv).written = sampleBytes ∧
      sampleBytes.length = 82 := by
  obtain ⟨⟨lv, hlv, herr, hsave⟩, _, _⟩ :=
    Save_Load_canonical (sampleReadEnv sampleBytes) sampleStorage "main" sampleBytes .EOF
      (sample_delivers _ _) (by decide) (by decide) (by decide) (by decide) sample_allocates
  obtain ⟨hok, hwritten⟩ := (hsave sampleWriteEnv sampleStorage).1 rfl rfl
  exact ⟨lv, hlv, herr, hok, hwritten, by decide⟩

end storage
